import Mathlib

/-!
# waterz: `backend/Operators.hpp`

A shallow embedding of the scoring-function operators of waterz and the
properties of them that the specification states.

## Numbers

The score type `T` of the source is a C++ floating type.  It is modelled by
`Flt K`, the values of an IEEE 754 format whose finite values are computed
exactly in an ordered field `K` (no rounding, no overflow, no underflow), and
which keeps what the source can observe besides the numeric value: the two
zeros (`std::signbit` tells them apart), the two infinities and NaN (division
by zero, `std::sqrt` of a negative number, comparisons that are false on NaN).
IEEE 754 leaves the sign bit of a NaN result open; the model takes it clear,
and the statements below that name the side of a saturation are about a
finite numerator, whose product with the denominator is not NaN.

## Scoring functions

A scoring-function class of the source has a `StatisticsProviderType`, a
constructor taking the region graph and the statistics provider, and a call
operator taking an edge.  `ScoreFunction` keeps the three; the call runs in a
monad `m`, so that a child with effects (the call operators of the source are
not `const`) is covered, and `m = Id` gives the pure reading of the
specification.
-/

namespace Waterz

/-! ## Floating values -/

/-- Values of the score type: `fin v` is the finite value `v` (`fin 0` is the
positive zero), `negZero` is the negative zero, `inf s` the infinity with sign
bit `s`, `nan` a NaN. -/
inductive Flt (K : Type) where
  | fin (v : K)
  | negZero
  | inf (neg : Bool)
  | nan
  deriving DecidableEq, Repr

namespace Flt

variable {K : Type} [LinearOrderedField K]

/-- Numeric value of a finite value (both zeros have value `0`); `0` on
infinities and NaN, where it is not used. -/
def val : Flt K → K
  | fin v => v
  | _ => 0

/-- The zero with sign bit `s`. -/
def zero (s : Bool) : Flt K :=
  if s then negZero else fin 0

/-- Sign bit, as read by `std::signbit`. -/
def signbit : Flt K → Bool
  | fin v => decide (v < 0)
  | negZero => true
  | inf s => s
  | nan => false

/-- Neither an infinity nor NaN (`std::isfinite`). -/
def isFinite : Flt K → Bool
  | fin _ => true
  | negZero => true
  | _ => false

/-- NaN test (`std::isnan`). -/
def isNaN : Flt K → Bool
  | nan => true
  | _ => false

/-- Unary minus: flips the sign bit. -/
def neg : Flt K → Flt K
  | fin v => if v = 0 then negZero else fin (-v)
  | negZero => fin 0
  | inf s => inf (!s)
  | nan => nan

/-- Absolute value, `std::abs`: clears the sign bit. -/
def abs : Flt K → Flt K
  | fin v => fin |v|
  | negZero => fin 0
  | inf _ => inf false
  | nan => nan

/-- Addition.  An exact zero sum is the positive zero unless both operands
are the negative zero (round to nearest). -/
def add : Flt K → Flt K → Flt K
  | nan, _ => nan
  | _, nan => nan
  | inf s, inf t => if s = t then inf s else nan
  | inf s, _ => inf s
  | _, inf t => inf t
  | negZero, negZero => negZero
  | x, y => fin (x.val + y.val)

/-- Subtraction, `a - b = a + (-b)`. -/
def sub (a b : Flt K) : Flt K :=
  add a (neg b)

/-- Multiplication.  The sign bit of a product that is not NaN is the
exclusive or of the operands' sign bits; `inf * 0` is NaN. -/
def mul : Flt K → Flt K → Flt K
  | nan, _ => nan
  | _, nan => nan
  | inf s, inf t => inf (xor s t)
  | inf s, y => if y.val = 0 then nan else inf (xor s y.signbit)
  | x, inf t => if x.val = 0 then nan else inf (xor x.signbit t)
  | x, y =>
    if x.val * y.val = 0 then zero (xor x.signbit y.signbit) else fin (x.val * y.val)

/-- Division.  A non-zero finite value over a zero is an infinity, `0 / 0` and
`inf / inf` are NaN; the sign bit of a quotient that is not NaN is the
exclusive or of the operands' sign bits. -/
def div : Flt K → Flt K → Flt K
  | nan, _ => nan
  | _, nan => nan
  | inf _, inf _ => nan
  | inf s, y => inf (xor s y.signbit)
  | x, inf t => zero (xor x.signbit t)
  | x, y =>
    if y.val = 0 then
      if x.val = 0 then nan else inf (xor x.signbit y.signbit)
    else if x.val = 0 then zero (xor x.signbit y.signbit)
    else fin (x.val / y.val)

/-- The comparison `a < b`: false when an operand is NaN; the two zeros are
equal. -/
def lt : Flt K → Flt K → Bool
  | nan, _ => false
  | _, nan => false
  | inf s, inf t => s && !t
  | inf s, _ => s
  | _, inf t => !t
  | x, y => decide (x.val < y.val)

/-- The comparison `a <= b`: false when an operand is NaN. -/
def le : Flt K → Flt K → Bool
  | nan, _ => false
  | _, nan => false
  | inf s, inf t => s || !t
  | inf s, _ => s
  | _, inf t => !t
  | x, y => decide (x.val ≤ y.val)

/-- The comparison `a == b`: false when an operand is NaN; the two zeros are
equal. -/
def eq : Flt K → Flt K → Bool
  | nan, _ => false
  | _, nan => false
  | inf s, inf t => s == t
  | inf _, _ => false
  | _, inf _ => false
  | x, y => decide (x.val = y.val)

/-- The function `std::sqrt`, over a square root `sqrtK` of the field: NaN on
negative numbers, the identity on the zeros and on `+inf`. -/
def sqrt (sqrtK : K → K) : Flt K → Flt K
  | fin v => if v < 0 then nan else fin (sqrtK v)
  | negZero => negZero
  | inf s => if s then nan else inf false
  | nan => nan

/-- The function `std::tanh`, over a hyperbolic tangent `tanhK` of the field:
`±1` at the infinities, the identity on the zeros. -/
def tanh (tanhK : K → K) : Flt K → Flt K
  | fin v => fin (tanhK v)
  | negZero => negZero
  | inf s => fin (if s then -1 else 1)
  | nan => nan

end Flt

/-- The constants of `std::numeric_limits<T>` that the source reads, for a
floating type `T`: `min` is the smallest positive normal value, `max` the
largest finite value, `lowest` the most negative finite value, with the
relations the C++ standard library gives them. -/
structure numeric_limits (K : Type) [LinearOrderedField K] where
  min : K
  max : K
  lowest : K
  min_pos : 0 < min
  min_le_max : min ≤ max
  lowest_eq : lowest = -max

/-- The limits of IEEE 754 binary32 (`float`). -/
def floatLimits : numeric_limits ℚ where
  min := 1 / 2 ^ 126
  max := (2 ^ 24 - 1) * 2 ^ 104
  lowest := -((2 ^ 24 - 1) * 2 ^ 104)
  min_pos := by norm_num
  min_le_max := by norm_num
  lowest_eq := rfl

/-! ## Elementary transforms -/

section Transforms

variable {K : Type} [LinearOrderedField K]

/-- Source: `one_minus::operator()`, `return 1.0 - x;`. -/
def one_minus (x : Flt K) : Flt K :=
  Flt.sub (Flt.fin 1) x

/-- Source: `invert::operator()`, `return 1.0/x;`. -/
def invert (x : Flt K) : Flt K :=
  Flt.div (Flt.fin 1) x

/-- Source: `square::operator()`, `return x*x;`. -/
def square (x : Flt K) : Flt K :=
  Flt.mul x x

/-- Source: `cosemSignedDistanceTransformOfRadius::operator()`.  The three
assignments to `r` are the three `let`s; `sqrtK` and `tanhK` stand for
`std::sqrt` and `std::tanh` on finite values. -/
def cosemSignedDistanceTransformOfRadius (sqrtK tanhK : K → K) (x : Flt K) : Flt K :=
  let r := Flt.sqrt sqrtK (Flt.div x (Flt.fin 3.14159265))
  let r := if Flt.lt r (Flt.fin 35) then r else Flt.fin 35
  let r := Flt.add (Flt.mul (Flt.fin 128) (Flt.tanh tanhK (Flt.div r (Flt.fin 12.5))))
    (Flt.fin 127)
  r

/-- Source: `save_divide::operator()`. -/
def save_divide (L : numeric_limits K) (a b : Flt K) : Flt K :=
  if Flt.le (Flt.abs b) (Flt.fin L.min) then
    if Flt.signbit (Flt.mul a b) then Flt.fin L.lowest else Flt.fin L.max
  else
    Flt.div a b

/-- Source: `step::operator()`. -/
def step (a b : Flt K) : Flt K :=
  if Flt.lt a b then Flt.fin 0 else Flt.fin 1

end Transforms

/-! ## Composition wrappers -/

/-- A scoring-function class: its `StatisticsProviderType` (a descriptor of
type `D`) and its call, which takes the two constructor arguments (region
graph and statistics provider) and the edge. -/
structure ScoreFunction (m : Type → Type) (D G P E T : Type) where
  StatisticsProviderType : D
  call : G → P → E → m T

section Wrappers

variable {m : Type → Type} [Monad m] {D G P E T : Type}

/-- Source: `BinaryOperator<ScoreFunction1, ScoreFunction2, Op>`.  The
descriptor is `MergeProviders<...>::Value` of the children's descriptors
(`MergeProviders.hpp` is taken as a parameter); the constructor hands the same
region graph and statistics provider to both bases; the call applies `_op` to
the two children's scores, the first child's score first. -/
def BinaryOperator (MergeProviders : D → D → D)
    (ScoreFunction1 ScoreFunction2 : ScoreFunction m D G P E T) (Op : T → T → T) :
    ScoreFunction m D G P E T where
  StatisticsProviderType :=
    MergeProviders ScoreFunction1.StatisticsProviderType ScoreFunction2.StatisticsProviderType
  call regionGraph statisticsProvider e := do
    let a ← ScoreFunction1.call regionGraph statisticsProvider e
    let b ← ScoreFunction2.call regionGraph statisticsProvider e
    pure (Op a b)

/-- Source: `UnaryOperator<ScoreFunction, Op>`. -/
def UnaryOperator (ScoreFunction0 : ScoreFunction m D G P E T) (Op : T → T) :
    ScoreFunction m D G P E T where
  StatisticsProviderType := ScoreFunction0.StatisticsProviderType
  call regionGraph statisticsProvider e := do
    let a ← ScoreFunction0.call regionGraph statisticsProvider e
    pure (Op a)

/-- Source: `template <typename T> using OneMinus = UnaryOperator<T, one_minus>`. -/
def OneMinus {K : Type} [LinearOrderedField K] (T0 : ScoreFunction m D G P E (Flt K)) :
    ScoreFunction m D G P E (Flt K) :=
  UnaryOperator T0 one_minus

/-- Source: `template <typename T> using Invert = UnaryOperator<T, invert>`. -/
def Invert {K : Type} [LinearOrderedField K] (T0 : ScoreFunction m D G P E (Flt K)) :
    ScoreFunction m D G P E (Flt K) :=
  UnaryOperator T0 invert

/-- Source: `template <typename T> using Square = UnaryOperator<T, square>`. -/
def Square {K : Type} [LinearOrderedField K] (T0 : ScoreFunction m D G P E (Flt K)) :
    ScoreFunction m D G P E (Flt K) :=
  UnaryOperator T0 square

/-- Source: `using CosemSignedDistanceTransformOfRadius =
UnaryOperator<T, cosemSignedDistanceTransformOfRadius>`. -/
def CosemSignedDistanceTransformOfRadius {K : Type} [LinearOrderedField K]
    (sqrtK tanhK : K → K) (T0 : ScoreFunction m D G P E (Flt K)) :
    ScoreFunction m D G P E (Flt K) :=
  UnaryOperator T0 (cosemSignedDistanceTransformOfRadius sqrtK tanhK)

/-- Source: `using Add = BinaryOperator<T1, T2, std::plus>`. -/
def Add {K : Type} [LinearOrderedField K] (MergeProviders : D → D → D)
    (T1 T2 : ScoreFunction m D G P E (Flt K)) : ScoreFunction m D G P E (Flt K) :=
  BinaryOperator MergeProviders T1 T2 Flt.add

/-- Source: `using Subtract = BinaryOperator<T1, T2, std::minus>`. -/
def Subtract {K : Type} [LinearOrderedField K] (MergeProviders : D → D → D)
    (T1 T2 : ScoreFunction m D G P E (Flt K)) : ScoreFunction m D G P E (Flt K) :=
  BinaryOperator MergeProviders T1 T2 Flt.sub

/-- Source: `using Multiply = BinaryOperator<T1, T2, std::multiplies>`. -/
def Multiply {K : Type} [LinearOrderedField K] (MergeProviders : D → D → D)
    (T1 T2 : ScoreFunction m D G P E (Flt K)) : ScoreFunction m D G P E (Flt K) :=
  BinaryOperator MergeProviders T1 T2 Flt.mul

/-- Source: `using Divide = BinaryOperator<T1, T2, save_divide>`. -/
def Divide {K : Type} [LinearOrderedField K] (L : numeric_limits K)
    (MergeProviders : D → D → D) (T1 T2 : ScoreFunction m D G P E (Flt K)) :
    ScoreFunction m D G P E (Flt K) :=
  BinaryOperator MergeProviders T1 T2 (save_divide L)

/-- Source: `using Step = BinaryOperator<T1, T2, step>`. -/
def Step {K : Type} [LinearOrderedField K] (MergeProviders : D → D → D)
    (T1 T2 : ScoreFunction m D G P E (Flt K)) : ScoreFunction m D G P E (Flt K) :=
  BinaryOperator MergeProviders T1 T2 step

end Wrappers

/-! ## Leaves and composition trees

The source has no leaf of its own (the leaves are the statistics-reading
classes of other headers); the leaves below are the ones the specification's
concrete properties speak of. -/

section Leaves

variable {m : Type → Type} [Monad m] {D G P E T : Type}

/-- A leaf scoring function that returns the same score `c` for every edge. -/
def constantLeaf (d : D) (c : T) : ScoreFunction m D G P E T where
  StatisticsProviderType := d
  call _ _ _ := pure c

/-- A leaf scoring function named `i` that records each evaluation: a call on
the edge `e` appends `(i, e)` to the log and returns the leaf's score. -/
def recordingLeaf {ι : Type} (i : ι) (d : D) (score : G → P → E → T) :
    ScoreFunction (StateM (List (ι × E))) D G P E T where
  StatisticsProviderType := d
  call regionGraph statisticsProvider e :=
    fun log => (score regionGraph statisticsProvider e, log ++ [(i, e)])

/-- The shape of a composition: a leaf, a `UnaryOperator` over a composition, or
a `BinaryOperator` over two. -/
inductive Composition (ι T : Type) where
  | leaf (i : ι)
  | unary (Op : T → T) (child : Composition ι T)
  | binary (Op : T → T → T) (childA childB : Composition ι T)

/-- The scoring function of a composition whose leaves record their
evaluations, built with the wrappers of the source. -/
def Composition.build {ι : Type} (MergeProviders : D → D → D) (descriptor : ι → D)
    (score : ι → G → P → E → T) :
    Composition ι T → ScoreFunction (StateM (List (ι × E))) D G P E T
  | .leaf i => recordingLeaf i (descriptor i) (score i)
  | .unary Op child => UnaryOperator (build MergeProviders descriptor score child) Op
  | .binary Op childA childB =>
    BinaryOperator MergeProviders (build MergeProviders descriptor score childA)
      (build MergeProviders descriptor score childB) Op

/-- The leaves of a composition, from left to right, each occurrence once. -/
def Composition.leaves {ι : Type} : Composition ι T → List ι
  | .leaf i => [i]
  | .unary _ child => child.leaves
  | .binary _ childA childB => childA.leaves ++ childB.leaves

/-- The value of a composition on an edge, from the scores of its leaves. -/
def Composition.value {ι : Type} (score : ι → G → P → E → T) (regionGraph : G)
    (statisticsProvider : P) (e : E) : Composition ι T → T
  | .leaf i => score i regionGraph statisticsProvider e
  | .unary Op child => Op (child.value score regionGraph statisticsProvider e)
  | .binary Op childA childB =>
    Op (childA.value score regionGraph statisticsProvider e)
      (childB.value score regionGraph statisticsProvider e)

end Leaves

/-! ## Capability merge -/

/-- Modelled from the spec: `MergeProviders<A, B>::Value` of `MergeProviders.hpp`,
which is not among the sources.  A capability descriptor is the set of the
accessors a scoring function needs; by the specification, if one descriptor's
accessors are a subset of the other's the result is the larger one, otherwise
the result is their union. -/
def MergeProviders.Value {α : Type} [DecidableEq α] (A B : Finset α) : Finset α :=
  if A ⊆ B then B else if B ⊆ A then A else A ∪ B

/-! ## Properties of the composition wrappers -/

section WrapperProperties

variable {D G P E T : Type}

/-- C1: the score of the binary composite at an edge is the operator applied
to the first child's score and the second child's score, in this order. -/
theorem BinaryOperator_call (MergeProviders : D → D → D)
    (A B : ScoreFunction Id D G P E T) (op : T → T → T) (regionGraph : G)
    (statisticsProvider : P) (e : E) :
    (BinaryOperator MergeProviders A B op).call regionGraph statisticsProvider e
      = op (A.call regionGraph statisticsProvider e) (B.call regionGraph statisticsProvider e) :=
  rfl

/-- The order of the children is observable: with subtraction over the constant
leaves `3` and `4` the composite scores `3 - 4`, not `4 - 3`. -/
theorem BinaryOperator_order_observable :
    let A : ScoreFunction Id Unit Unit Unit Unit (Flt ℚ) := ⟨(), fun _ _ _ => Flt.fin 3⟩
    let B : ScoreFunction Id Unit Unit Unit Unit (Flt ℚ) := ⟨(), fun _ _ _ => Flt.fin 4⟩
    (BinaryOperator (fun _ _ => ()) A B Flt.sub).call () () () = Flt.fin (-1) ∧
      Flt.sub (B.call () () ()) (A.call () () ()) = Flt.fin 1 := by
  constructor
  · show Flt.sub (Flt.fin (3 : ℚ)) (Flt.fin 4) = Flt.fin (-1)
    norm_num [Flt.sub, Flt.neg, Flt.add, Flt.val]
  · show Flt.sub (Flt.fin (4 : ℚ)) (Flt.fin 3) = Flt.fin 1
    norm_num [Flt.sub, Flt.neg, Flt.add, Flt.val]

/-- C2: the score of the unary composite at an edge is the transform applied to
the child's score, and the composite's `StatisticsProviderType` is the
child's. -/
theorem UnaryOperator_call (f : ScoreFunction Id D G P E T) (t : T → T)
    (regionGraph : G) (statisticsProvider : P) (e : E) :
    (UnaryOperator f t).call regionGraph statisticsProvider e
        = t (f.call regionGraph statisticsProvider e) ∧
      (UnaryOperator f t).StatisticsProviderType = f.StatisticsProviderType :=
  ⟨rfl, rfl⟩

end WrapperProperties

/-! ## Properties of the elementary transforms -/

section TransformProperties

variable {K : Type} [LinearOrderedField K]

/-- A value above a bound is not at most the bound. -/
theorem Flt.le_eq_false_of_lt (x y : Flt K) (h : Flt.lt y x = true) : Flt.le x y = false := by
  cases x <;> cases y <;> simp_all [Flt.lt, Flt.le, Flt.val]

/-- The sign bit of a product of finite values is the exclusive or of the sign
bits of the factors. -/
theorem Flt.signbit_mul_of_isFinite (a b : Flt K) (ha : a.isFinite = true)
    (hb : b.isFinite = true) :
    Flt.signbit (Flt.mul a b) = xor a.signbit b.signbit := by
  cases a <;> cases b <;> simp_all [Flt.isFinite, Flt.mul, Flt.val, Flt.signbit, Flt.zero]
  case fin.fin x y =>
    rcases lt_trichotomy x 0 with hx | hx | hx <;> rcases lt_trichotomy y 0 with hy | hy | hy
    all_goals simp_all [Flt.signbit, not_lt_of_gt, mul_pos_of_neg_of_neg, mul_neg_of_neg_of_pos, mul_neg_of_pos_of_neg, mul_pos, ne_of_gt, ne_of_lt, le_of_lt]
  all_goals split_ifs <;> simp_all [Flt.signbit]

/-- C3, as the specification states it, fails on the boundary: for `float`,
with `a = 1` and `b` the smallest positive normal value `m = 2 ^ (-126)`, `|b|`
is not below `m` (`|b| >= m` holds), yet the result is the largest finite value
and not the quotient `a / b = 2 ^ 126`. -/
theorem save_divide_boundary_counterexample :
    Flt.lt (Flt.abs (Flt.fin floatLimits.min)) (Flt.fin floatLimits.min) = false ∧
    Flt.le (Flt.fin floatLimits.min) (Flt.abs (Flt.fin floatLimits.min)) = true ∧
    save_divide floatLimits (Flt.fin 1) (Flt.fin floatLimits.min) = Flt.fin floatLimits.max ∧
    Flt.div (Flt.fin 1) (Flt.fin floatLimits.min) = Flt.fin (2 ^ 126) ∧
    save_divide floatLimits (Flt.fin 1) (Flt.fin floatLimits.min)
      ≠ Flt.div (Flt.fin 1) (Flt.fin floatLimits.min) := by
  have habs : |(1 : ℚ) / 2 ^ 126| = 1 / 2 ^ 126 := abs_of_pos (by norm_num)
  have hsat : save_divide floatLimits (Flt.fin 1) (Flt.fin floatLimits.min)
      = Flt.fin floatLimits.max := by
    simp only [save_divide, floatLimits, Flt.le, Flt.abs, Flt.mul, Flt.val, Flt.signbit, habs]
    norm_num
  have hdiv : Flt.div (Flt.fin 1) (Flt.fin floatLimits.min) = Flt.fin ((2 : ℚ) ^ 126) := by
    simp only [floatLimits, Flt.div, Flt.val]
    norm_num
  refine ⟨?_, ?_, hsat, hdiv, ?_⟩
  · simp only [floatLimits, Flt.lt, Flt.abs, Flt.val, habs]
    norm_num
  · simp only [floatLimits, Flt.le, Flt.abs, Flt.val, habs]
    norm_num
  · rw [hsat, hdiv]
    simp only [floatLimits]
    norm_num

/-- C3, amended: if `|b| <= m` the result is the most negative finite value
when the sign bit of the product `a * b` is set and the largest finite value
otherwise; if `|b| > m` the result is the quotient `a / b`. -/
theorem save_divide_cases (L : numeric_limits K) (a b : Flt K) :
    (Flt.le (Flt.abs b) (Flt.fin L.min) = true →
      save_divide L a b =
        if Flt.signbit (Flt.mul a b) then Flt.fin L.lowest else Flt.fin L.max) ∧
    (Flt.lt (Flt.fin L.min) (Flt.abs b) = true → save_divide L a b = Flt.div a b) := by
  constructor
  · intro h
    simp [save_divide, h]
  · intro h
    simp [save_divide, Flt.le_eq_false_of_lt _ _ h]

/-- Witness of `save_divide_cases` for `float`: `4 / 0` saturates and `4 / 2`
is the quotient `2`. -/
theorem save_divide_cases_witness :
    save_divide floatLimits (Flt.fin 4) (Flt.fin 0) = Flt.fin floatLimits.max ∧
      save_divide floatLimits (Flt.fin 4) (Flt.fin 2) = Flt.fin 2 := by
  constructor
  · have h := (save_divide_cases floatLimits (Flt.fin 4) (Flt.fin 0)).1
      (by norm_num [floatLimits, Flt.le, Flt.abs, Flt.val])
    rw [h]
    norm_num [Flt.mul, Flt.val, Flt.signbit, Flt.zero]
  · have h := (save_divide_cases floatLimits (Flt.fin 4) (Flt.fin 2)).2
      (by norm_num [floatLimits, Flt.lt, Flt.abs, Flt.val])
    rw [h]
    norm_num [Flt.div, Flt.val]

/-- C4, as stated for every `a`, fails at the infinities: `+inf > 0` and
`-inf < 0`, but the product of either infinity with the zero denominator is
NaN, so `save_divide(+inf, 0)` and `save_divide(-inf, 0)` are the same extreme
value and cannot be the largest finite value for the one and the most negative
for the other.  (Which of the two they are is decided by the sign bit of that
NaN, which IEEE 754 leaves open.) -/
theorem save_divide_zero_counterexample :
    Flt.lt (Flt.fin (0 : ℚ)) (Flt.inf false) = true ∧
    Flt.lt (Flt.inf true) (Flt.fin (0 : ℚ)) = true ∧
    Flt.mul (Flt.inf false) (Flt.fin (0 : ℚ)) = Flt.nan ∧
    Flt.mul (Flt.inf true) (Flt.fin (0 : ℚ)) = Flt.nan ∧
    save_divide floatLimits (Flt.inf false) (Flt.fin 0)
      = save_divide floatLimits (Flt.inf true) (Flt.fin 0) ∧
    ¬ (save_divide floatLimits (Flt.inf false) (Flt.fin 0) = Flt.fin floatLimits.max ∧
        save_divide floatLimits (Flt.inf true) (Flt.fin 0) = Flt.fin floatLimits.lowest) := by
  have hp : Flt.mul (Flt.inf false) (Flt.fin (0 : ℚ)) = Flt.nan := by
    simp [Flt.mul, Flt.val]
  have hn : Flt.mul (Flt.inf true) (Flt.fin (0 : ℚ)) = Flt.nan := by
    simp [Flt.mul, Flt.val]
  have hsame : save_divide floatLimits (Flt.inf false) (Flt.fin 0)
      = save_divide floatLimits (Flt.inf true) (Flt.fin 0) := by
    have hguard : Flt.le (Flt.abs (Flt.fin (0 : ℚ))) (Flt.fin floatLimits.min) = true := by
      simp [Flt.le, Flt.abs, Flt.val, le_of_lt floatLimits.min_pos]
    unfold save_divide
    rw [hp, hn, if_pos hguard, if_pos hguard]
  refine ⟨by simp [Flt.lt], by simp [Flt.lt], hp, hn, hsame, ?_⟩
  rintro ⟨h1, h2⟩
  rw [hsame, h2] at h1
  have h3 := Flt.fin.inj h1
  simp only [floatLimits] at h3
  norm_num at h3

/-- C4, amended: dividing a finite `a` by zero gives the largest finite value
when `a > 0` and the most negative finite value when `a < 0`; and for every
`a`, an infinity or NaN included, the result of dividing by zero is finite. -/
theorem save_divide_zero (L : numeric_limits K) (a : Flt K) :
    (a.isFinite = true →
      (Flt.lt (Flt.fin 0) a = true → save_divide L a (Flt.fin 0) = Flt.fin L.max) ∧
      (Flt.lt a (Flt.fin 0) = true → save_divide L a (Flt.fin 0) = Flt.fin L.lowest)) ∧
    (save_divide L a (Flt.fin 0)).isFinite = true ∧
    (save_divide L a (Flt.fin 0)).isNaN = false := by
  have hm : (0 : K) ≤ L.min := le_of_lt L.min_pos
  have hguard : Flt.le (Flt.abs (Flt.fin (0 : K))) (Flt.fin L.min) = true := by
    simp [Flt.le, Flt.abs, Flt.val, hm]
  refine ⟨?_, ?_, ?_⟩
  · intro ha
    cases a with
    | fin v =>
      rcases lt_trichotomy v 0 with hv | hv | hv
      · simp [save_divide, Flt.le, Flt.abs, Flt.val, hm, Flt.mul, Flt.zero, Flt.signbit,
          Flt.lt, hv, not_lt_of_gt hv]
      · simp [save_divide, Flt.le, Flt.abs, Flt.val, hm, Flt.mul, Flt.zero, Flt.signbit,
          Flt.lt, hv]
      · simp [save_divide, Flt.le, Flt.abs, Flt.val, hm, Flt.mul, Flt.zero, Flt.signbit,
          Flt.lt, hv, not_lt_of_gt hv]
    | negZero => simp [Flt.lt, Flt.val]
    | inf s => simp [Flt.isFinite] at ha
    | nan => simp [Flt.isFinite] at ha
  · unfold save_divide
    rw [if_pos hguard]
    cases Flt.signbit (Flt.mul a (Flt.fin 0)) <;> simp [Flt.isFinite]
  · unfold save_divide
    rw [if_pos hguard]
    cases Flt.signbit (Flt.mul a (Flt.fin 0)) <;> simp [Flt.isNaN]

/-- Witness of `save_divide_zero` for `float`: `1 / 0` is the largest finite
value and `-1 / 0` the most negative one. -/
theorem save_divide_zero_witness :
    save_divide floatLimits (Flt.fin 1) (Flt.fin 0) = Flt.fin floatLimits.max ∧
      save_divide floatLimits (Flt.fin (-1)) (Flt.fin 0) = Flt.fin floatLimits.lowest :=
  ⟨((save_divide_zero floatLimits (Flt.fin 1)).1 rfl).1 (by norm_num [Flt.lt, Flt.val]),
    ((save_divide_zero floatLimits (Flt.fin (-1))).1 rfl).2 (by norm_num [Flt.lt, Flt.val])⟩

/-- Dividing a positive finite `a` by the negative zero gives the most
negative finite value: the sign bit of the zero denominator decides the side
of the saturation. -/
theorem save_divide_negZero (L : numeric_limits K) (v : K) (hv : 0 < v) :
    save_divide L (Flt.fin v) Flt.negZero = Flt.fin L.lowest := by
  have hm : (0 : K) ≤ L.min := le_of_lt L.min_pos
  simp [save_divide, Flt.le, Flt.abs, Flt.val, hm, Flt.mul, Flt.zero, Flt.signbit,
    not_lt_of_gt hv]

/-- C5: `step a b` is `0` or `1`, and it is `0` exactly when `a < b`. -/
theorem step_spec (a b : Flt K) :
    (step a b = Flt.fin 0 ∨ step a b = Flt.fin 1) ∧
      (step a b = Flt.fin 0 ↔ Flt.lt a b = true) := by
  unfold step
  cases h : Flt.lt a b <;> simp

/-- C9: for a finite `x`, `one_minus (one_minus x)` compares equal to `x`, and
it is `x` itself unless `x` is the negative zero (where it is the positive
zero). -/
theorem one_minus_involutive (x : Flt K) (hx : x.isFinite = true) :
    Flt.eq (one_minus (one_minus x)) x = true ∧
      (x ≠ Flt.negZero → one_minus (one_minus x) = x) := by
  cases x with
  | fin v =>
    by_cases hv : v = 0
    · subst hv
      simp [one_minus, Flt.sub, Flt.neg, Flt.add, Flt.val, Flt.eq]
    · by_cases h1 : (1 : K) + -v = 0
      · have h2 : (1 : K) = v := by linarith
        simp [one_minus, Flt.sub, Flt.neg, Flt.add, Flt.val, Flt.eq, hv, h1, h2]
      · simp [one_minus, Flt.sub, Flt.neg, Flt.add, Flt.val, Flt.eq, hv, h1]
  | negZero => simp [one_minus, Flt.sub, Flt.neg, Flt.add, Flt.val, Flt.eq]
  | inf s => simp [Flt.isFinite] at hx
  | nan => simp [Flt.isFinite] at hx

/-- Witness of `one_minus_involutive` at `x = 3 / 10`. -/
theorem one_minus_involutive_witness :
    one_minus (one_minus (Flt.fin (3 / 10 : ℚ))) = Flt.fin (3 / 10) :=
  (one_minus_involutive (Flt.fin (3 / 10 : ℚ)) rfl).2 (by simp)

/-- C10: for a number `x` different from zero (an infinity included),
`invert (invert x)` is `x`. -/
theorem invert_involutive (x : Flt K) (hnan : x.isNaN = false)
    (hx : Flt.eq x (Flt.fin 0) = false) : invert (invert x) = x := by
  cases x with
  | fin v =>
    have hv : v ≠ 0 := by simpa [Flt.eq, Flt.val] using hx
    simp [invert, Flt.div, Flt.val, hv]
  | negZero => simp [Flt.eq, Flt.val] at hx
  | inf s =>
    have h1 : ¬ (1 : K) < 0 := by norm_num
    cases s <;> simp [invert, Flt.div, Flt.val, Flt.zero, Flt.signbit, h1]
  | nan => simp [Flt.isNaN] at hnan

/-- Witness of `invert_involutive` at `x = 4`. -/
theorem invert_involutive_witness : invert (invert (Flt.fin (4 : ℚ))) = Flt.fin 4 :=
  invert_involutive (Flt.fin (4 : ℚ)) rfl (by norm_num [Flt.eq, Flt.val])

end TransformProperties


section Cosem

variable {K : Type} [LinearOrderedField K]

/-- Division of a finite value by a positive finite value is the exact
quotient. -/
theorem Flt.div_fin_of_pos (v c : K) (hc : 0 < c) :
    Flt.div (Flt.fin v) (Flt.fin c) = Flt.fin (v / c) := by
  have hc0 : c ≠ 0 := ne_of_gt hc
  by_cases hv : v = 0
  · simp [Flt.div, Flt.val, hc0, hv, Flt.zero, Flt.signbit, not_lt_of_gt hc]
  · simp [Flt.div, Flt.val, hc0, hv]

/-- Multiplication of a positive finite value with a finite value is the exact
product. -/
theorem Flt.mul_fin_of_pos (c t : K) (hc : 0 < c) :
    Flt.mul (Flt.fin c) (Flt.fin t) = Flt.fin (c * t) := by
  have hc0 : c ≠ 0 := ne_of_gt hc
  by_cases ht : t = 0
  · simp [Flt.mul, Flt.val, ht, Flt.zero, Flt.signbit, not_lt_of_gt hc]
  · simp [Flt.mul, Flt.val, hc0, ht]

/-- The last assignment of the transform, on a finite clamped radius `s`: the
curve `128 * tanh (s / 12.5) + 127`. -/
theorem cosem_curve (tanhK : K → K) (s : K) :
    Flt.add (Flt.mul (Flt.fin 128) (Flt.tanh tanhK (Flt.div (Flt.fin s) (Flt.fin 12.5))))
      (Flt.fin 127) = Flt.fin (128 * tanhK (s / 12.5) + 127) := by
  have h125 : (0 : K) < 12.5 := by norm_num
  have h128 : (0 : K) < 128 := by norm_num
  rw [Flt.div_fin_of_pos _ _ h125]
  simp only [Flt.tanh]
  rw [Flt.mul_fin_of_pos _ _ h128]
  simp [Flt.add, Flt.val]

/-- The transform when the square root is not below `35` (NaN included): the
radius is clamped to `35`. -/
theorem cosem_of_not_lt (sqrtK tanhK : K → K) (x : Flt K)
    (h : Flt.lt (Flt.sqrt sqrtK (Flt.div x (Flt.fin 3.14159265))) (Flt.fin 35) = false) :
    cosemSignedDistanceTransformOfRadius sqrtK tanhK x =
      Flt.fin (128 * tanhK (35 / 12.5) + 127) := by
  unfold cosemSignedDistanceTransformOfRadius
  simp only [h]
  exact cosem_curve tanhK 35

/-- The transform on a finite input, by the three cases of the source: the
square root is NaN (negative input), below `35`, or not below `35`. -/
theorem cosem_fin (sqrtK tanhK : K → K) (v : K) :
    cosemSignedDistanceTransformOfRadius sqrtK tanhK (Flt.fin v) =
      if v / 3.14159265 < 0 then Flt.fin (128 * tanhK (35 / 12.5) + 127)
      else if sqrtK (v / 3.14159265) < 35 then
        Flt.fin (128 * tanhK (sqrtK (v / 3.14159265) / 12.5) + 127)
      else Flt.fin (128 * tanhK (35 / 12.5) + 127) := by
  have hpi : (0 : K) < 3.14159265 := by norm_num
  by_cases hneg : v / 3.14159265 < 0
  · rw [if_pos hneg]
    apply cosem_of_not_lt
    simp [Flt.div_fin_of_pos _ _ hpi, Flt.sqrt, hneg, Flt.lt]
  · rw [if_neg hneg]
    by_cases hlt : sqrtK (v / 3.14159265) < 35
    · rw [if_pos hlt]
      unfold cosemSignedDistanceTransformOfRadius
      have hr : Flt.sqrt sqrtK (Flt.div (Flt.fin v) (Flt.fin 3.14159265))
          = Flt.fin (sqrtK (v / 3.14159265)) := by
        simp [Flt.div_fin_of_pos _ _ hpi, Flt.sqrt, hneg]
      have hl : Flt.lt (Flt.fin (sqrtK (v / 3.14159265))) (Flt.fin 35) = true := by
        simp [Flt.lt, Flt.val, hlt]
      simp only [hr, hl, if_true]
      exact cosem_curve tanhK _
    · rw [if_neg hlt]
      apply cosem_of_not_lt
      simp [Flt.div_fin_of_pos _ _ hpi, Flt.sqrt, hneg, Flt.lt, Flt.val, hlt]

/-- The hyperbolic tangent is strictly increasing. -/
theorem tanh_strictMono : StrictMono Real.tanh := by
  intro x y h
  have hs : 0 < Real.sinh (y - x) := Real.sinh_pos_iff.mpr (sub_pos.mpr h)
  rw [Real.sinh_sub] at hs
  show Real.tanh x < Real.tanh y
  rw [Real.tanh_eq_sinh_div_cosh, Real.tanh_eq_sinh_div_cosh,
    div_lt_div_iff₀ (Real.cosh_pos x) (Real.cosh_pos y)]
  linarith [mul_comm (Real.cosh y) (Real.sinh x)]

/-- The saturation value `128 * tanh (35 / 12.5) + 127` is at least `127`. -/
theorem cosem_bound_ge : (127 : ℝ) ≤ 128 * Real.tanh (35 / 12.5) + 127 := by
  have h : Real.tanh 0 < Real.tanh (35 / 12.5) := tanh_strictMono (by norm_num)
  rw [Real.tanh_zero] at h
  linarith

/-- The transform on the negative zero, on the infinities and on NaN. -/
theorem cosem_special :
    cosemSignedDistanceTransformOfRadius Real.sqrt Real.tanh Flt.negZero = Flt.fin 127 ∧
    (∀ s, cosemSignedDistanceTransformOfRadius Real.sqrt Real.tanh (Flt.inf s)
      = Flt.fin (128 * Real.tanh (35 / 12.5) + 127)) ∧
    cosemSignedDistanceTransformOfRadius Real.sqrt Real.tanh Flt.nan
      = Flt.fin (128 * Real.tanh (35 / 12.5) + 127) := by
  have hpi : ¬ ((3.14159265 : ℝ) < 0) := by norm_num
  have hpi0 : ((3.14159265 : ℝ) ≠ 0) := by norm_num
  have h125 : ((12.5 : ℝ) ≠ 0) := by norm_num
  have h125n : ¬ ((12.5 : ℝ) < 0) := by norm_num
  refine ⟨?_, ?_, ?_⟩
  · simp [cosemSignedDistanceTransformOfRadius, Flt.div, Flt.val, Flt.zero, Flt.signbit,
      Flt.sqrt, Flt.lt, Flt.tanh, Flt.mul, Flt.add, hpi, hpi0, h125, h125n]
  · intro s
    apply cosem_of_not_lt
    cases s <;> simp [Flt.div, Flt.signbit, Flt.sqrt, Flt.lt, hpi]
  · apply cosem_of_not_lt
    simp [Flt.div, Flt.sqrt, Flt.lt]

/-- C6: on every input the transform is at most `128 * tanh (35 / 12.5) + 127`,
and it is that value on every input from `1225 * 3.14159265` on (where the
radius reaches the clamp `35`), `+inf` included. -/
theorem cosem_le_saturation (x : Flt ℝ) :
    Flt.le (cosemSignedDistanceTransformOfRadius Real.sqrt Real.tanh x)
        (Flt.fin (128 * Real.tanh (35 / 12.5) + 127)) = true ∧
      (Flt.le (Flt.fin (1225 * 3.14159265)) x = true →
        cosemSignedDistanceTransformOfRadius Real.sqrt Real.tanh x
          = Flt.fin (128 * Real.tanh (35 / 12.5) + 127)) := by
  cases x with
  | fin v =>
    rw [cosem_fin]
    constructor
    · split_ifs with h1 h2
      · simp [Flt.le, Flt.val]
      · have h := tanh_strictMono (show √(v / 3.14159265) / 12.5 < 35 / 12.5 by
          apply div_lt_div_of_pos_right h2; norm_num)
        simp only [Flt.le, Flt.val, decide_eq_true_eq]
        linarith
      · simp [Flt.le, Flt.val]
    · intro hv
      have hv2 : (1225 : ℝ) * 3.14159265 ≤ v := by simpa [Flt.le, Flt.val] using hv
      have h3 : (35 : ℝ) ^ 2 ≤ v / 3.14159265 := by
        rw [le_div_iff₀ (by norm_num)]
        linarith
      have h4 : (35 : ℝ) ≤ √(v / 3.14159265) := Real.le_sqrt_of_sq_le h3
      have h5 : ¬ (v / 3.14159265 < 0) := by
        have : (0 : ℝ) ≤ 35 ^ 2 := by norm_num
        linarith
      rw [if_neg h5, if_neg (not_lt.mpr h4)]
  | negZero =>
    rw [cosem_special.1]
    constructor
    · simpa [Flt.le, Flt.val] using cosem_bound_ge
    · intro h
      norm_num [Flt.le, Flt.val] at h
  | inf s =>
    rw [cosem_special.2.1 s]
    simp [Flt.le, Flt.val]
  | nan =>
    rw [cosem_special.2.2]
    simp [Flt.le, Flt.val]

/-- C7: the transform of the area `0` is exactly `127`. -/
theorem cosem_zero :
    cosemSignedDistanceTransformOfRadius Real.sqrt Real.tanh (Flt.fin 0) = Flt.fin 127 := by
  rw [cosem_fin]
  norm_num [Real.sqrt_zero, Real.tanh_zero]

end Cosem

/-! ## Properties of compositions -/

section CompositionProperties

variable {D G P E : Type} {K : Type} [LinearOrderedField K]

/-- One minus the product of a finite `a` with the inverse of a finite non-zero
`b` is the finite value `1 - a * (1 / b)`. -/
theorem one_minus_mul_invert_fin (a b : K) (hb : b ≠ 0) :
    one_minus (Flt.mul (Flt.fin a) (invert (Flt.fin b))) = Flt.fin (1 - a * (1 / b)) := by
  have hinv : invert (Flt.fin b) = Flt.fin (1 / b) := by
    simp [invert, Flt.div, Flt.val, hb]
  rw [hinv]
  by_cases ha : a = 0
  · subst ha
    by_cases hneg : b < 0
    · have h1 : b⁻¹ < 0 := inv_lt_zero.mpr hneg
      simp [one_minus, Flt.mul, Flt.val, Flt.zero, Flt.signbit, Flt.sub, Flt.neg, Flt.add,
        h1]
    · have h1 : ¬ b⁻¹ < 0 := fun h => hneg (inv_lt_zero.mp h)
      simp [one_minus, Flt.mul, Flt.val, Flt.zero, Flt.signbit, Flt.sub, Flt.neg, Flt.add,
        h1]
  · simp [one_minus, Flt.mul, Flt.val, Flt.sub, Flt.neg, Flt.add, ha, hb, sub_eq_add_neg]

/-- C11: the nested composite `OneMinus(Multiply(f, Invert(g)))` scores an edge
as `1 - f(e) * (1 / g(e))`: where `g(e)` is a finite non-zero `b` and `f(e)` a
finite `a` the score is the finite value `1 - a * (1 / b)`; and the score is the
same under any other merge of descriptors and for any children with the same
scores, whatever their descriptors. -/
theorem OneMinus_Multiply_Invert_call (MergeProviders : D → D → D)
    (f g : ScoreFunction Id D G P E (Flt K)) (regionGraph : G) (statisticsProvider : P)
    (e : E) :
    (OneMinus (Multiply MergeProviders f (Invert g))).call regionGraph statisticsProvider e
        = Flt.sub (Flt.fin 1)
            (Flt.mul (f.call regionGraph statisticsProvider e)
              (Flt.div (Flt.fin 1) (g.call regionGraph statisticsProvider e))) ∧
      (∀ a b : K, f.call regionGraph statisticsProvider e = Flt.fin a →
        g.call regionGraph statisticsProvider e = Flt.fin b → b ≠ 0 →
        (OneMinus (Multiply MergeProviders f (Invert g))).call regionGraph
          statisticsProvider e = Flt.fin (1 - a * (1 / b))) ∧
      (∀ (MergeProviders2 : D → D → D) (f2 g2 : ScoreFunction Id D G P E (Flt K)),
        f2.call = f.call → g2.call = g.call →
        (OneMinus (Multiply MergeProviders2 f2 (Invert g2))).call regionGraph
          statisticsProvider e
        = (OneMinus (Multiply MergeProviders f (Invert g))).call regionGraph
          statisticsProvider e) := by
  have hcall : ∀ (M : D → D → D) (f1 g1 : ScoreFunction Id D G P E (Flt K)),
      (OneMinus (Multiply M f1 (Invert g1))).call regionGraph statisticsProvider e
        = one_minus (Flt.mul (f1.call regionGraph statisticsProvider e)
            (invert (g1.call regionGraph statisticsProvider e))) := fun _ _ _ => rfl
  refine ⟨rfl, ?_, ?_⟩
  · intro a b ha hb hb0
    rw [hcall, ha, hb]
    exact one_minus_mul_invert_fin a b hb0
  · intro M2 f2 g2 hf hg
    rw [hcall, hcall, hf, hg]

/-- Witness of `OneMinus_Multiply_Invert_call`: over the constant leaves `3` and
`4` the nested composite scores `1 - 3 * (1 / 4)`. -/
theorem OneMinus_Multiply_Invert_call_witness :
    (OneMinus (Multiply (fun _ _ => ())
      (constantLeaf () (Flt.fin 3) : ScoreFunction Id Unit Unit Unit Unit (Flt ℚ))
      (Invert (constantLeaf () (Flt.fin 4))))).call () () ()
      = Flt.fin (1 - 3 * (1 / 4)) :=
  (OneMinus_Multiply_Invert_call (fun _ _ => ())
    (constantLeaf () (Flt.fin 3) : ScoreFunction Id Unit Unit Unit Unit (Flt ℚ))
    (constantLeaf () (Flt.fin 4)) () () ()).2.1 3 4 rfl rfl (by norm_num)

/-- C12: one call of a composition on an edge `e` evaluates every leaf exactly
once, on `e`: from any log, the call returns the composition's value and
extends the log by one entry `(i, e)` for each leaf occurrence `i`, whatever
the operators and the scores.  A binary composite of two leaves records both,
a unary composite of a leaf records its one leaf.  (The log lists the first
child before the second; C++ leaves the order of the two evaluations open, and
the number of entries does not depend on it.) -/
theorem Composition_call_once {ι T : Type} (MergeProviders : D → D → D)
    (descriptor : ι → D) (score : ι → G → P → E → T) (t : Composition ι T)
    (regionGraph : G) (statisticsProvider : P) (e : E) (log : List (ι × E)) :
    ((t.build MergeProviders descriptor score).call regionGraph statisticsProvider e).run log
      = (t.value score regionGraph statisticsProvider e,
          log ++ t.leaves.map (fun i => (i, e))) := by
  induction t generalizing log with
  | leaf i => rfl
  | unary Op child ih =>
    show (do
      let a ← (child.build MergeProviders descriptor score).call regionGraph
        statisticsProvider e
      pure (Op a) : StateM (List (ι × E)) T).run log = _
    rw [StateT.run_bind, ih]
    rfl
  | binary Op childA childB ihA ihB =>
    show (do
      let a ← (childA.build MergeProviders descriptor score).call regionGraph
        statisticsProvider e
      let b ← (childB.build MergeProviders descriptor score).call regionGraph
        statisticsProvider e
      pure (Op a b) : StateM (List (ι × E)) T).run log = _
    rw [StateT.run_bind, ihA]
    show (do
      let b ← (childB.build MergeProviders descriptor score).call regionGraph
        statisticsProvider e
      pure (Op (childA.value score regionGraph statisticsProvider e) b)
        : StateM (List (ι × E)) T).run _ = _
    rw [StateT.run_bind, ihB]
    simp [Composition.value, Composition.leaves, List.append_assoc]

/-- C13: `Divide` over a leaf that returns `1.0` and a leaf that returns `0.0`
for every edge scores every edge with the largest finite value, which is
neither NaN nor an infinity. -/
theorem Divide_one_zero (L : numeric_limits K) (MergeProviders : D → D → D) (d1 d2 : D)
    (regionGraph : G) (statisticsProvider : P) (e : E) :
    (Divide L MergeProviders
        (constantLeaf d1 (Flt.fin 1) : ScoreFunction Id D G P E (Flt K))
        (constantLeaf d2 (Flt.fin 0))).call regionGraph statisticsProvider e
      = Flt.fin L.max ∧
    Flt.isFinite ((Divide L MergeProviders
        (constantLeaf d1 (Flt.fin 1) : ScoreFunction Id D G P E (Flt K))
        (constantLeaf d2 (Flt.fin 0))).call regionGraph statisticsProvider e) = true ∧
    Flt.isNaN ((Divide L MergeProviders
        (constantLeaf d1 (Flt.fin 1) : ScoreFunction Id D G P E (Flt K))
        (constantLeaf d2 (Flt.fin 0))).call regionGraph statisticsProvider e) = false := by
  have hm : (0 : K) ≤ L.min := le_of_lt L.min_pos
  have h : (Divide L MergeProviders
        (constantLeaf d1 (Flt.fin 1) : ScoreFunction Id D G P E (Flt K))
        (constantLeaf d2 (Flt.fin 0))).call regionGraph statisticsProvider e
      = Flt.fin L.max := by
    have h1 : ¬ (1 : K) < 0 := by norm_num
    show save_divide L (Flt.fin 1) (Flt.fin 0) = Flt.fin L.max
    simp [save_divide, Flt.le, Flt.abs, Flt.val, hm, Flt.mul, Flt.zero, Flt.signbit, h1]
  rw [h]
  exact ⟨rfl, rfl, rfl⟩

/-- C14: `Add` over a leaf that returns `0.3` and a leaf that returns `0.4` for
every edge scores every edge `0.7`. -/
theorem Add_constant_leaves (MergeProviders : D → D → D) (d1 d2 : D)
    (regionGraph : G) (statisticsProvider : P) (e : E) :
    (Add MergeProviders
        (constantLeaf d1 (Flt.fin 0.3) : ScoreFunction Id D G P E (Flt K))
        (constantLeaf d2 (Flt.fin 0.4))).call regionGraph statisticsProvider e
      = Flt.fin 0.7 := by
  show Flt.add (Flt.fin (0.3 : K)) (Flt.fin 0.4) = Flt.fin 0.7
  simp only [Flt.add, Flt.val]
  norm_num

/-- The modelled merge is the union of the two accessor sets. -/
theorem MergeProviders.Value_eq_union {α : Type} [DecidableEq α] (A B : Finset α) :
    MergeProviders.Value A B = A ∪ B := by
  unfold MergeProviders.Value
  split_ifs with h1 h2
  · exact (Finset.union_eq_right.mpr h1).symm
  · exact (Finset.union_eq_left.mpr h2).symm
  · rfl

/-- C15: the capability merge is idempotent, commutative and associative, so
the binary composite over `F` and `G` and the one over `G` and `F` have the
same descriptor. -/
theorem MergeProviders_semilattice {α T : Type} [DecidableEq α] (A B C : Finset α)
    (F G0 : ScoreFunction Id (Finset α) G P E T) (op : T → T → T) :
    MergeProviders.Value A A = A ∧
    MergeProviders.Value A B = MergeProviders.Value B A ∧
    MergeProviders.Value (MergeProviders.Value A B) C
      = MergeProviders.Value A (MergeProviders.Value B C) ∧
    (BinaryOperator MergeProviders.Value F G0 op).StatisticsProviderType
      = (BinaryOperator MergeProviders.Value G0 F op).StatisticsProviderType := by
  refine ⟨?_, ?_, ?_, ?_⟩
  · rw [MergeProviders.Value_eq_union, Finset.union_self]
  · rw [MergeProviders.Value_eq_union, MergeProviders.Value_eq_union, Finset.union_comm]
  · simp only [MergeProviders.Value_eq_union, Finset.union_assoc]
  · show MergeProviders.Value _ _ = MergeProviders.Value _ _
    rw [MergeProviders.Value_eq_union, MergeProviders.Value_eq_union, Finset.union_comm]

end CompositionProperties

/-! ## The two regimes of `save_divide` -/

section SaveDivideRegimes

variable {K : Type} [LinearOrderedField K]

/-- The largest finite value is positive. -/
theorem numeric_limits.max_pos (L : numeric_limits K) : 0 < L.max :=
  lt_of_lt_of_le L.min_pos L.min_le_max

/-- The most negative finite value is negative. -/
theorem numeric_limits.lowest_neg (L : numeric_limits K) : L.lowest < 0 := by
  rw [L.lowest_eq]
  exact neg_lt_zero.mpr L.max_pos

/-- In the saturating regime the result is one of the two extreme values. -/
theorem save_divide_saturates (L : numeric_limits K) (a b : Flt K)
    (h : Flt.le (Flt.abs b) (Flt.fin L.min) = true) :
    save_divide L a b = Flt.fin L.lowest ∨ save_divide L a b = Flt.fin L.max := by
  unfold save_divide
  rw [if_pos h]
  cases Flt.signbit (Flt.mul a b) <;> simp

/-- C16, as stated, fails where the quotient is itself an extreme value: for
`float`, with `b = m` the smallest positive normal value and `a = max * m`,
`|b| <= m` holds and the result, the largest finite value, is the quotient
`a / b`. -/
theorem save_divide_quotient_counterexample :
    Flt.le (Flt.abs (Flt.fin floatLimits.min)) (Flt.fin floatLimits.min) = true ∧
    save_divide floatLimits (Flt.fin (floatLimits.max * floatLimits.min))
        (Flt.fin floatLimits.min) = Flt.fin floatLimits.max ∧
    Flt.div (Flt.fin (floatLimits.max * floatLimits.min)) (Flt.fin floatLimits.min)
      = Flt.fin floatLimits.max ∧
    save_divide floatLimits (Flt.fin (floatLimits.max * floatLimits.min))
        (Flt.fin floatLimits.min)
      = Flt.div (Flt.fin (floatLimits.max * floatLimits.min)) (Flt.fin floatLimits.min) := by
  have habs : |(1 : ℚ) / 2 ^ 126| = 1 / 2 ^ 126 := abs_of_pos (by norm_num)
  have hsat : save_divide floatLimits (Flt.fin (floatLimits.max * floatLimits.min))
      (Flt.fin floatLimits.min) = Flt.fin floatLimits.max := by
    simp only [save_divide, floatLimits, Flt.le, Flt.abs, Flt.mul, Flt.val, Flt.signbit, habs]
    norm_num
  have hdiv : Flt.div (Flt.fin (floatLimits.max * floatLimits.min)) (Flt.fin floatLimits.min)
      = Flt.fin floatLimits.max := by
    simp only [floatLimits, Flt.div, Flt.val]
    norm_num
  refine ⟨?_, hsat, hdiv, ?_⟩
  · simp only [floatLimits, Flt.le, Flt.abs, Flt.val, habs]
    norm_num
  · rw [hsat, hdiv]

/-- C16, amended: when `|b| <= m` (the boundary `|b| = m` included) the result
is the most negative or the largest finite value; when `|b| > m` the result is
the quotient `a / b`; and `save_divide(0, 0)` is the largest finite value. -/
theorem save_divide_regimes (L : numeric_limits K) (a b : Flt K) :
    (Flt.le (Flt.abs b) (Flt.fin L.min) = true →
      save_divide L a b = Flt.fin L.lowest ∨ save_divide L a b = Flt.fin L.max) ∧
    (Flt.lt (Flt.fin L.min) (Flt.abs b) = true → save_divide L a b = Flt.div a b) ∧
    save_divide L (Flt.fin 0) (Flt.fin 0) = Flt.fin L.max := by
  refine ⟨save_divide_saturates L a b, ?_, ?_⟩
  · intro h
    simp [save_divide, Flt.le_eq_false_of_lt _ _ h]
  · have hm : (0 : K) ≤ L.min := le_of_lt L.min_pos
    simp [save_divide, Flt.le, Flt.abs, Flt.val, hm, Flt.mul, Flt.zero, Flt.signbit]

/-- Witness of `save_divide_regimes` for `float`: on the boundary,
`save_divide(-1, m)` is one of the two extreme values; `0 / 0` is the largest
finite value; and `6 / 3` is the quotient `2`. -/
theorem save_divide_regimes_witness :
    (save_divide floatLimits (Flt.fin (-1)) (Flt.fin floatLimits.min)
        = Flt.fin floatLimits.lowest ∨
      save_divide floatLimits (Flt.fin (-1)) (Flt.fin floatLimits.min)
        = Flt.fin floatLimits.max) ∧
    save_divide floatLimits (Flt.fin 0) (Flt.fin 0) = Flt.fin floatLimits.max ∧
    save_divide floatLimits (Flt.fin 6) (Flt.fin 3) = Flt.fin 2 := by
  have habs : |(1 : ℚ) / 2 ^ 126| = 1 / 2 ^ 126 := abs_of_pos (by norm_num)
  refine ⟨?_, ?_, ?_⟩
  · apply (save_divide_regimes floatLimits (Flt.fin (-1)) (Flt.fin floatLimits.min)).1
    simp only [floatLimits, Flt.le, Flt.abs, Flt.val, habs]
    norm_num
  · exact (save_divide_regimes floatLimits (Flt.fin 0) (Flt.fin 0)).2.2
  · have h := (save_divide_regimes floatLimits (Flt.fin 6) (Flt.fin 3)).2.1
      (by norm_num [floatLimits, Flt.lt, Flt.abs, Flt.val])
    rw [h]
    norm_num [Flt.div, Flt.val]

/-- The sign bit of the product with a positive finite value is the sign bit of
the other factor, when that factor is not NaN. -/
theorem Flt.signbit_mul_fin_pos (a : Flt K) (y : K) (hy : 0 < y) (ha : a.isNaN = false) :
    Flt.signbit (Flt.mul a (Flt.fin y)) = a.signbit := by
  have hy0 : y ≠ 0 := ne_of_gt hy
  have hyn : ¬ y < 0 := not_lt_of_gt hy
  cases a with
  | fin x =>
    by_cases hx : x = 0
    · simp [Flt.mul, Flt.val, hx, Flt.zero, Flt.signbit, hyn]
    · have hiff : x * y < 0 ↔ x < 0 := by
        constructor
        · intro h
          by_contra hne
          have hx0 : 0 ≤ x := not_lt.mp hne
          exact absurd h (not_lt.mpr (mul_nonneg hx0 (le_of_lt hy)))
        · intro h
          exact mul_neg_of_neg_of_pos h hy
      simp [Flt.mul, Flt.val, hx, hy0, Flt.signbit, hiff]
  | negZero => simp [Flt.mul, Flt.val, Flt.zero, Flt.signbit, hyn]
  | inf s => simp [Flt.mul, Flt.val, hy0, Flt.signbit, hyn]
  | nan => simp [Flt.isNaN] at ha

/-- Of two ordered values, the smaller with its sign bit clear and the larger
with its sign bit set: they are the positive and the negative zero. -/
theorem Flt.zeros_of_le_of_signbit (a1 a2 : Flt K) (h : Flt.le a1 a2 = true)
    (h1 : a1.signbit = false) (h2 : a2.signbit = true) :
    a1 = Flt.fin 0 ∧ a2 = Flt.negZero := by
  cases a1 with
  | fin x =>
    cases a2 with
    | fin y =>
      simp only [Flt.le, Flt.val, Flt.signbit, decide_eq_true_eq, decide_eq_false_iff_not] at *
      exact absurd (lt_of_le_of_lt h h2) h1
    | negZero =>
      simp only [Flt.le, Flt.val, Flt.signbit, decide_eq_true_eq, decide_eq_false_iff_not] at *
      exact ⟨by rw [le_antisymm h (not_lt.mp h1)], trivial⟩
    | inf t => cases t <;> simp_all [Flt.le, Flt.signbit]
    | nan => simp [Flt.le] at h
  | negZero => simp [Flt.signbit] at h1
  | inf s => cases s <;> cases a2 <;> simp_all [Flt.le, Flt.signbit]
  | nan => simp [Flt.le] at h

/-- The quotient by a positive finite value keeps the order. -/
theorem Flt.div_fin_pos_mono (a1 a2 : Flt K) (y : K) (hy : 0 < y)
    (h : Flt.le a1 a2 = true) :
    Flt.le (Flt.div a1 (Flt.fin y)) (Flt.div a2 (Flt.fin y)) = true := by
  have hy0 : y ≠ 0 := ne_of_gt hy
  have hyn : ¬ y < 0 := not_lt_of_gt hy
  have hnz : Flt.div (Flt.negZero : Flt K) (Flt.fin y) = Flt.negZero := by
    simp [Flt.div, Flt.val, hy0, Flt.zero, Flt.signbit, hyn]
  have hinf : ∀ s, Flt.div (Flt.inf s : Flt K) (Flt.fin y) = Flt.inf s := by
    intro s
    simp [Flt.div, Flt.signbit, hyn]
  cases a1 with
  | fin x1 =>
    cases a2 with
    | fin x2 =>
      rw [Flt.div_fin_of_pos _ _ hy, Flt.div_fin_of_pos _ _ hy]
      have hx : x1 ≤ x2 := by simpa [Flt.le, Flt.val] using h
      simpa [Flt.le, Flt.val] using div_le_div_of_nonneg_right hx (le_of_lt hy)
    | negZero =>
      rw [Flt.div_fin_of_pos _ _ hy, hnz]
      have hx : x1 ≤ 0 := by simpa [Flt.le, Flt.val] using h
      simpa [Flt.le, Flt.val] using div_nonpos_of_nonpos_of_nonneg hx (le_of_lt hy)
    | inf t =>
      rw [Flt.div_fin_of_pos _ _ hy, hinf]
      simpa [Flt.le] using h
    | nan => simp [Flt.le] at h
  | negZero =>
    cases a2 with
    | fin x2 =>
      rw [Flt.div_fin_of_pos _ _ hy, hnz]
      have hx : 0 ≤ x2 := by simpa [Flt.le, Flt.val] using h
      simpa [Flt.le, Flt.val] using div_nonneg hx (le_of_lt hy)
    | negZero => rw [hnz]; simp [Flt.le, Flt.val]
    | inf t =>
      rw [hinf, hnz]
      simpa [Flt.le] using h
    | nan => simp [Flt.le] at h
  | inf s =>
    cases a2 with
    | fin x2 =>
      rw [Flt.div_fin_of_pos _ _ hy, hinf]
      simpa [Flt.le] using h
    | negZero =>
      rw [hinf, hnz]
      simpa [Flt.le] using h
    | inf t =>
      rw [hinf, hinf]
      exact h
    | nan => simp [Flt.le] at h
  | nan => simp [Flt.le] at h

/-- C17, as stated, fails in two places.  For `float` with the denominator
`b = m`, the smallest positive normal value: `+0 <= -0`, yet `save_divide(+0, b)`
is the largest finite value and `save_divide(-0, b)` the most negative one.  And
with the denominator `+inf`: `1 <= +inf`, yet `save_divide(1, +inf)` is `0` and
`save_divide(+inf, +inf)` is NaN, which is not above anything. -/
theorem save_divide_mono_counterexample :
    (Flt.lt (Flt.fin 0) (Flt.fin floatLimits.min) = true ∧
      Flt.le (Flt.fin (0 : ℚ)) Flt.negZero = true ∧
      save_divide floatLimits (Flt.fin 0) (Flt.fin floatLimits.min)
        = Flt.fin floatLimits.max ∧
      save_divide floatLimits Flt.negZero (Flt.fin floatLimits.min)
        = Flt.fin floatLimits.lowest ∧
      Flt.le (save_divide floatLimits (Flt.fin 0) (Flt.fin floatLimits.min))
        (save_divide floatLimits Flt.negZero (Flt.fin floatLimits.min)) = false) ∧
    (Flt.lt (Flt.fin (0 : ℚ)) (Flt.inf false) = true ∧
      Flt.le (Flt.fin (1 : ℚ)) (Flt.inf false) = true ∧
      save_divide floatLimits (Flt.fin 1) (Flt.inf false) = Flt.fin 0 ∧
      save_divide floatLimits (Flt.inf false) (Flt.inf false) = Flt.nan ∧
      Flt.le (save_divide floatLimits (Flt.fin 1) (Flt.inf false))
        (save_divide floatLimits (Flt.inf false) (Flt.inf false)) = false) := by
  have habs : |(1 : ℚ) / 2 ^ 126| = 1 / 2 ^ 126 := abs_of_pos (by norm_num)
  have h1 : save_divide floatLimits (Flt.fin 0) (Flt.fin floatLimits.min)
      = Flt.fin floatLimits.max := by
    simp only [save_divide, floatLimits, Flt.le, Flt.abs, Flt.mul, Flt.val, Flt.signbit,
      Flt.zero, habs]
    norm_num
  have h2 : save_divide floatLimits Flt.negZero (Flt.fin floatLimits.min)
      = Flt.fin floatLimits.lowest := by
    simp only [save_divide, floatLimits, Flt.le, Flt.abs, Flt.mul, Flt.val, Flt.signbit,
      Flt.zero, habs]
    norm_num
  have h3 : save_divide floatLimits (Flt.fin 1) (Flt.inf false) = Flt.fin 0 := by
    simp [save_divide, Flt.le, Flt.abs, Flt.div, Flt.zero, Flt.signbit]
  have h4 : save_divide floatLimits (Flt.inf false) (Flt.inf false) = Flt.nan := by
    simp [save_divide, Flt.le, Flt.abs, Flt.div]
  refine ⟨⟨?_, ?_, h1, h2, ?_⟩, ⟨?_, ?_, h3, h4, ?_⟩⟩
  · norm_num [floatLimits, Flt.lt, Flt.val]
  · simp [Flt.le, Flt.val]
  · rw [h1, h2]
    norm_num [floatLimits, Flt.le, Flt.val]
  · simp [Flt.lt]
  · simp [Flt.le]
  · rw [h3, h4]
    simp [Flt.le]

/-- C17, amended: for a finite denominator `b > 0` and `a1 <= a2`, other than
`a1 = +0` with `a2 = -0` in the saturating regime (`b <= m`),
`save_divide(a1, b) <= save_divide(a2, b)`. -/
theorem save_divide_mono (L : numeric_limits K) (a1 a2 b : Flt K)
    (hb : Flt.lt (Flt.fin 0) b = true) (hfin : b.isFinite = true)
    (h12 : Flt.le a1 a2 = true)
    (hz : a1 = Flt.fin 0 → a2 = Flt.negZero → Flt.lt (Flt.fin L.min) b = true) :
    Flt.le (save_divide L a1 b) (save_divide L a2 b) = true := by
  have hlm : L.lowest ≤ L.max := le_of_lt (lt_trans L.lowest_neg L.max_pos)
  have hn1 : a1.isNaN = false := by cases a1 <;> simp_all [Flt.isNaN, Flt.le]
  have hn2 : a2.isNaN = false := by cases a1 <;> cases a2 <;> simp_all [Flt.isNaN, Flt.le]
  cases b with
  | fin y =>
    have hy : 0 < y := by simpa [Flt.lt, Flt.val] using hb
    by_cases hreg : y ≤ L.min
    · have hle : Flt.le (Flt.abs (Flt.fin y)) (Flt.fin L.min) = true := by
        simp [Flt.le, Flt.abs, Flt.val, abs_of_pos hy, hreg]
      unfold save_divide
      rw [if_pos hle, if_pos hle, Flt.signbit_mul_fin_pos a1 y hy hn1,
        Flt.signbit_mul_fin_pos a2 y hy hn2]
      cases hs1 : a1.signbit <;> cases hs2 : a2.signbit
      · simp [Flt.le, Flt.val]
      · obtain ⟨e1, e2⟩ := Flt.zeros_of_le_of_signbit a1 a2 h12 hs1 hs2
        have hlt := hz e1 e2
        have : L.min < y := by simpa [Flt.lt, Flt.val] using hlt
        exact absurd hreg (not_le.mpr this)
      · simp [Flt.le, Flt.val, hlm]
      · simp [Flt.le, Flt.val]
    · have hle : Flt.le (Flt.abs (Flt.fin y)) (Flt.fin L.min) = false := by
        simp [Flt.le, Flt.abs, Flt.val, abs_of_pos hy, not_le.mp hreg]
      unfold save_divide
      simp only [hle]
      exact Flt.div_fin_pos_mono a1 a2 y hy h12
  | negZero => simp [Flt.lt, Flt.val] at hb
  | inf s => simp [Flt.isFinite] at hfin
  | nan => simp [Flt.isFinite] at hfin

/-- Witness of `save_divide_mono` for `float`: in the dividing regime, with the
denominator `2`, `save_divide(1, 2) <= save_divide(3, 2)`; in the saturating
regime, with the denominator `m`, `save_divide(-1, m) <= save_divide(1, m)`. -/
theorem save_divide_mono_witness :
    Flt.le (save_divide floatLimits (Flt.fin 1) (Flt.fin 2))
        (save_divide floatLimits (Flt.fin 3) (Flt.fin 2)) = true ∧
      Flt.le (save_divide floatLimits (Flt.fin (-1)) (Flt.fin floatLimits.min))
        (save_divide floatLimits (Flt.fin 1) (Flt.fin floatLimits.min)) = true :=
  ⟨save_divide_mono floatLimits (Flt.fin 1) (Flt.fin 3) (Flt.fin 2)
      (by norm_num [Flt.lt, Flt.val]) rfl (by norm_num [Flt.le, Flt.val])
      (fun h => absurd (Flt.fin.inj h) (by norm_num)),
    save_divide_mono floatLimits (Flt.fin (-1)) (Flt.fin 1) (Flt.fin floatLimits.min)
      (by norm_num [floatLimits, Flt.lt, Flt.val]) rfl (by norm_num [Flt.le, Flt.val])
      (fun h => absurd (Flt.fin.inj h) (by norm_num))⟩

end SaveDivideRegimes

/-! ## Monotonicity of the saturating radius transform -/

section CosemMonotone

/-- The curve of the transform on a non-negative real area `v`. -/
theorem cosem_fin_of_nonneg (v : ℝ) (hv : 0 ≤ v) :
    cosemSignedDistanceTransformOfRadius Real.sqrt Real.tanh (Flt.fin v)
      = Flt.fin (128 * Real.tanh (min (√(v / 3.14159265)) 35 / 12.5) + 127) := by
  have h1 : ¬ (v / 3.14159265 < 0) := not_lt.mpr (div_nonneg hv (by norm_num))
  rw [cosem_fin, if_neg h1]
  split_ifs with h2
  · rw [min_eq_left (le_of_lt h2)]
  · rw [min_eq_right (not_lt.mp h2)]

/-- The curve of the transform is non-decreasing in the area. -/
theorem cosem_curve_mono (v w : ℝ) (h : v ≤ w) :
    128 * Real.tanh (min (√(v / 3.14159265)) 35 / 12.5) + 127
      ≤ 128 * Real.tanh (min (√(w / 3.14159265)) 35 / 12.5) + 127 := by
  have hq : v / 3.14159265 ≤ w / 3.14159265 :=
    div_le_div_of_nonneg_right h (by norm_num)
  have hs : √(v / 3.14159265) ≤ √(w / 3.14159265) := Real.sqrt_le_sqrt hq
  have hm : min (√(v / 3.14159265)) 35 ≤ min (√(w / 3.14159265)) 35 :=
    min_le_min hs (le_refl _)
  have hd : min (√(v / 3.14159265)) 35 / 12.5 ≤ min (√(w / 3.14159265)) 35 / 12.5 :=
    div_le_div_of_nonneg_right hm (by norm_num)
  have ht := tanh_strictMono.monotone hd
  linarith

/-- The curve of the transform is at most the saturation value. -/
theorem cosem_curve_le (v : ℝ) :
    128 * Real.tanh (min (√(v / 3.14159265)) 35 / 12.5) + 127
      ≤ 128 * Real.tanh (35 / 12.5) + 127 := by
  have hd : min (√(v / 3.14159265)) 35 / 12.5 ≤ 35 / 12.5 :=
    div_le_div_of_nonneg_right (min_le_right _ _) (by norm_num)
  have ht := tanh_strictMono.monotone hd
  linarith

/-- The transform of a non-negative value that is not NaN: the curve at a
finite value (both zeros at `0`), the saturation value at `+inf`. -/
theorem cosem_of_nonneg (x : Flt ℝ) (hx : Flt.le (Flt.fin 0) x = true) :
    (∃ v : ℝ, 0 ≤ v ∧ v = x.val ∧ x.isFinite = true ∧
      cosemSignedDistanceTransformOfRadius Real.sqrt Real.tanh x
        = Flt.fin (128 * Real.tanh (min (√(v / 3.14159265)) 35 / 12.5) + 127)) ∨
    (x = Flt.inf false ∧
      cosemSignedDistanceTransformOfRadius Real.sqrt Real.tanh x
        = Flt.fin (128 * Real.tanh (35 / 12.5) + 127)) := by
  cases x with
  | fin v =>
    have hv : (0 : ℝ) ≤ v := by simpa [Flt.le, Flt.val] using hx
    exact Or.inl ⟨v, hv, rfl, rfl, cosem_fin_of_nonneg v hv⟩
  | negZero =>
    refine Or.inl ⟨0, le_refl _, rfl, rfl, ?_⟩
    rw [cosem_special.1]
    norm_num [Real.sqrt_zero, Real.tanh_zero]
  | inf s =>
    cases s
    · exact Or.inr ⟨rfl, cosem_special.2.1 false⟩
    · simp [Flt.le] at hx
  | nan => simp [Flt.le] at hx

/-- C18: on non-negative areas the transform is non-decreasing, and it is the
constant `128 * tanh (35 / 12.5) + 127` on every area whose radius
`sqrt (x / 3.14159265)` is at least `35`, that is from `1225 * 3.14159265` on. -/
theorem cosem_monotone (x1 x2 : Flt ℝ) :
    (Flt.le (Flt.fin 0) x1 = true → Flt.le x1 x2 = true →
      Flt.le (cosemSignedDistanceTransformOfRadius Real.sqrt Real.tanh x1)
        (cosemSignedDistanceTransformOfRadius Real.sqrt Real.tanh x2) = true) ∧
    (∀ v : ℝ, 35 ≤ √(v / 3.14159265) →
      cosemSignedDistanceTransformOfRadius Real.sqrt Real.tanh (Flt.fin v)
        = Flt.fin (128 * Real.tanh (35 / 12.5) + 127)) ∧
    (∀ v : ℝ, 1225 * 3.14159265 ≤ v → 35 ≤ √(v / 3.14159265)) := by
  refine ⟨?_, ?_, ?_⟩
  · intro h0 h12
    have h02 : Flt.le (Flt.fin 0) x2 = true := by
      cases x1 <;> cases x2 <;> simp_all [Flt.le, Flt.val]
      exact le_trans h0 h12
    rcases cosem_of_nonneg x1 h0 with ⟨v, _, hv, hf1, e1⟩ | ⟨hi1, e1⟩
    · rcases cosem_of_nonneg x2 h02 with ⟨w, _, hw, hf2, e2⟩ | ⟨_, e2⟩
      · have hvw : v ≤ w := by
          rw [hv, hw]
          cases x1 <;> cases x2 <;> simp_all [Flt.le, Flt.val, Flt.isFinite]
        rw [e1, e2]
        simpa [Flt.le, Flt.val] using cosem_curve_mono v w hvw
      · rw [e1, e2]
        simpa [Flt.le, Flt.val] using cosem_curve_le v
    · have hi2 : x2 = Flt.inf false := by
        rw [hi1] at h12
        cases x2 with
        | fin w => simp [Flt.le] at h12
        | negZero => simp [Flt.le] at h12
        | inf t => cases t <;> simp_all [Flt.le]
        | nan => simp [Flt.le] at h12
      rw [hi1, hi2]
      simp [cosem_special.2.1 false, Flt.le, Flt.val]
  · intro v hv
    have h5 : ¬ (v / 3.14159265 < 0) := by
      intro hneg
      have h0 : √(v / 3.14159265) = 0 := Real.sqrt_eq_zero_of_nonpos (le_of_lt hneg)
      rw [h0] at hv
      norm_num at hv
    rw [cosem_fin, if_neg h5, if_neg (not_lt.mpr hv)]
  · intro v hv
    apply Real.le_sqrt_of_sq_le
    rw [le_div_iff₀ (by norm_num)]
    linarith

/-- Witness of `cosem_monotone`: the transform of the area `0` is at most the
transform of the area `100`. -/
theorem cosem_monotone_witness :
    Flt.le (cosemSignedDistanceTransformOfRadius Real.sqrt Real.tanh (Flt.fin 0))
      (cosemSignedDistanceTransformOfRadius Real.sqrt Real.tanh (Flt.fin 100)) = true :=
  (cosem_monotone (Flt.fin 0) (Flt.fin 100)).1 (by simp [Flt.le, Flt.val])
    (by norm_num [Flt.le, Flt.val])

end CosemMonotone

/-! ## The decimal divisor of the radius and the circle constant -/

section CosemCircleConstant

end CosemCircleConstant

end Waterz
